import Mathlib

/-!
Verification of the pullpush bulk file-transfer tool.

This file gives a shallow embedding of the core of the program
(`src/track.rs`, `src/main.rs`, `src/copier.rs`, `src/vfs.rs`) and proves
properties of the tracker (WAL + snapshot persistence), the listing
filters, the copy engine and the VFS status conversions.

Modelling conventions:
* Rust `String` / `PathBuf` values are modelled as `List Char` (`Str`),
  so that splitting and serialisation admit inductive proofs.
* `u64` values are `Nat`; parsing enforces the `< 2 ^ 64` bound.
* `SystemTime` is `Nat` seconds since the Unix epoch.
  `SystemTime::duration_since` returning `Err` for a "future" time and
  `system_time_to_u64`'s `unwrap_or(0)` for pre-epoch times are both
  modelled by truncated `Nat` subtraction.
* A file on disk is `Option (List Str)`: `none` when the file is absent,
  otherwise its list of lines (newline-free; non-zero size iff nonempty).
* Fallible I/O is `Except`; where a claim depends on an I/O fault the
  operation takes explicit success flags for the faultable steps.
-/

set_option autoImplicit false

namespace PullPush

/-- Rust strings / paths, byte-for-byte (`char` list). -/
abbrev Str := List Char

/-- The NUL field separator of the tracker record format. -/
def nulChar : Char := '\x00'

/-- Model of Rust `str::split` on one pattern char: splitting the empty
string yields `[[]]`. -/
def splitOnChar (sep : Char) : Str → List Str
  | [] => [[]]
  | c :: cs =>
    if c = sep then [] :: splitOnChar sep cs
    else
      match splitOnChar sep cs with
      | [] => [[c]]
      | f :: rest => (c :: f) :: rest

/-- `str::split('\0')`, the field splitter of `Track::from_str`. -/
def splitNul (s : Str) : List Str := splitOnChar nulChar s

/-- Digits of a `Nat` in base 10, most significant first, with explicit
fuel so that the kernel can evaluate it. -/
def natToDigitsAux : Nat → Nat → Str
  | 0, _ => []
  | fuel + 1, n =>
    if n < 10 then [Nat.digitChar n]
    else natToDigitsAux fuel (n / 10) ++ [Nat.digitChar (n % 10)]

/-- Digits of a `Nat` in base 10, most significant first (Rust `Display`). -/
def natToDigits (n : Nat) : Str := natToDigitsAux (n + 1) n

/-- Value of a digit string, most significant first. -/
def digitsVal (s : Str) : Nat :=
  s.foldl (fun a c => a * 10 + (c.toNat - 48)) 0

/-- Model of Rust `str::parse::<u64>()`: an optional leading '+', then at
least one ASCII digit, value below `2 ^ 64`. -/
def parseU64 (s : Str) : Option Nat :=
  let t := if s.head? = some '+' then s.tail else s
  if t ≠ [] ∧ t.all Char.isDigit then
    if digitsVal t < 2 ^ 64 then some (digitsVal t) else none
  else none

/-! ## VFS data model (`src/vfs.rs`) -/

inductive FileType
  | Regular
  | Directory
  | Unknown
deriving DecidableEq

structure FileStatus where
  file_type : FileType
  size : Nat
  mtime : Nat
deriving DecidableEq

deriving instance DecidableEq for Except

/-- The slice of `std::fs::Metadata` the conversion reads:
`is_file()`, `modified()` (fallible) and `len()`. -/
structure Metadata where
  is_file : Bool
  modified : Except Unit Nat
  len : Nat
deriving DecidableEq

/-- `TryFrom<&std::fs::Metadata> for FileStatus` (src/vfs.rs:206-220):
regular files become `Regular`, everything else becomes `Directory`. -/
def fileStatusOfMetadata (value : Metadata) : Except Unit FileStatus :=
  match value.modified with
  | .error e => .error e
  | .ok ft =>
    .ok { file_type := if value.is_file then .Regular else .Directory
          size := value.len
          mtime := ft }

/-- The slice of `ssh2::FileStat` the conversion reads. -/
structure SshFileStat where
  is_dir : Bool
  mtime : Option Nat
  size : Option Nat
deriving DecidableEq

/-- `TryFrom<&ssh2::FileStat> for FileStatus` (src/vfs.rs:222-236):
directories become `Directory`, everything else `Regular`; an absent
mtime makes `value.mtime.unwrap()` panic, modelled as an error. -/
def fileStatusOfFileStat (value : SshFileStat) : Except Unit FileStatus :=
  match value.mtime with
  | none => .error ()
  | some m =>
    .ok { file_type := if value.is_dir then .Directory else .Regular
          mtime := m
          size := value.size.getD 0 }

/-! ## Track records (`src/track.rs`) -/

structure Track where
  src_path : Str
  lastmod : Nat
  size : Nat
deriving DecidableEq

/-- `Track::from_str` (src/track.rs:73-86): split on NUL, take the first
three fields (any further fields are ignored by the iterator), parse the
2nd and 3rd as `u64`. -/
def Track.fromStr (s : Str) : Except Str Track :=
  match splitNul s with
  | [] => .error ("missing first field in track record".toList)
  | [_] => .error ("missing 2nd field in track record".toList)
  | [_, _] => .error ("missing 3rd field in track record".toList)
  | p :: m :: sz :: _ =>
    match parseU64 m with
    | none => .error ("last mod time number cannot be parsed".toList)
    | some lm =>
      match parseU64 sz with
      | none => .error ("file size number cannot be parsed".toList)
      | some szn => .ok { src_path := p, lastmod := lm, size := szn }

/-- `Track::from_sftp_entry` (src/track.rs:96-102); the Rust version
returns `Result` but never fails. -/
def Track.fromSftpEntry (path : Str) (filestat : FileStatus) : Track :=
  { src_path := path, lastmod := filestat.mtime, size := filestat.size }

/-- `Track::from_just_path` (src/track.rs:103-109). -/
def Track.fromJustPath (path : Str) : Track :=
  { src_path := path, lastmod := 0, size := 0 }

/-- `Track::write` (src/track.rs:112-115): the line
`path NUL lastmod NUL size` (the trailing newline is the line separator
of the file model). -/
def Track.line (t : Track) : Str :=
  t.src_path ++ [nulChar] ++ natToDigits t.lastmod ++ [nulChar] ++ natToDigits t.size

/-! ## The in-memory set

`HashSet<Track>` with path-only `Hash`/`Eq` is modelled as a list of
records whose operations only compare `src_path`. -/

abbrev TrackSet := List Track

def setContains (s : TrackSet) (t : Track) : Bool :=
  s.any (fun e => e.src_path == t.src_path)

/-- `HashSet::replace`: replace the entry with the same path, or append. -/
def setReplace (s : TrackSet) (t : Track) : TrackSet :=
  if setContains s t then
    s.map (fun e => if e.src_path == t.src_path then t else e)
  else s ++ [t]

/-- `HashSet::insert`: no-op when an entry with the same path is present. -/
def setInsert (s : TrackSet) (t : Track) : TrackSet :=
  if setContains s t then s else s ++ [t]

/-- `HashSet::get` keyed by path. -/
def lookupPath (s : TrackSet) (p : Str) : Option Track :=
  s.find? (fun e => e.src_path == p)

/-! ## Tracker persistence (`src/track.rs`) -/

/-- The three on-disk artifacts the tracker touches, as line lists. -/
structure TrackerFs where
  snapshot : Option (List Str)
  tmp : Option (List Str)
  wal : Option (List Str)
deriving DecidableEq

structure Tracker where
  set : TrackSet
  /-- `wal: Option<BufWriter<File>>`: `some buf` holds the lines written
  but not yet flushed to the WAL file. -/
  wal_writer : Option (List Str)
deriving DecidableEq

inductive TrackDelta
  | Equal
  | None
  | SizeChange
  | LastModChange
deriving DecidableEq

/-- One iteration of the parse loop of `Tracker::entries_from`
(src/track.rs:228-249): skip unparsable lines; keep a parsed record only
when `lastmod > mtime_too_old`, replacing any record with the same path
and counting it. -/
def entriesStep (cutoff : Nat) (acc : TrackSet × Nat) (l : Str) : TrackSet × Nat :=
  match Track.fromStr l with
  | .error _ => acc
  | .ok t =>
    if cutoff < t.lastmod then
      if setContains acc.1 t then (setReplace acc.1 t, acc.2 + 1)
      else (setInsert acc.1 t, acc.2 + 1)
    else acc

/-- `Tracker::entries_from` (src/track.rs:205-255). A missing file is
tolerated (`File::open` error: warn and return). After the loop, a file
of non-zero size from which zero records were counted is a hard error. -/
def entriesFrom (file : Option (List Str)) (set : TrackSet) (cutoff : Nat) :
    Except Str TrackSet :=
  match file with
  | none => .ok set
  | some lines =>
    if lines ≠ [] ∧ (lines.foldl (entriesStep cutoff) (set, 0)).2 = 0 then
      .error ("Fishy tracker file".toList)
    else .ok (lines.foldl (entriesStep cutoff) (set, 0)).1

/-- `Tracker::write_entries` (src/track.rs:186-203): write every record
of the set to the `.tmp_<name>` sibling, then rename it over the target.
I/O faults of this step are not modelled (it is never hit by a claim's
failure case). -/
def writeEntries (set : TrackSet) (fs : TrackerFs) : TrackerFs :=
  let fs1 := { fs with tmp := some (set.map Track.line) }
  { fs1 with snapshot := fs1.tmp, tmp := none }

/-- The mtime cutoff of `Tracker::entries_from`:
`system_time_to_u64(now - max_track_age)`, which is 0 whenever
`max_track_age ≥ now` (pre-epoch result, `unwrap_or(0)`). -/
def mtimeTooOld (now maxTrackAge : Nat) : Nat := now - maxTrackAge

/-- `Tracker::new` (src/track.rs:135-166): load the snapshot, replay a
non-empty WAL on top of it (rewriting the snapshot and deleting the WAL
when one was replayed), then create a fresh empty WAL. -/
def Tracker.new (fs : TrackerFs) (now maxTrackAge : Nat) :
    Except Str (Tracker × TrackerFs) :=
  match entriesFrom fs.snapshot [] (mtimeTooOld now maxTrackAge) with
  | .error e => .error e
  | .ok set =>
    match fs.wal with
    | none =>
      .ok ({ set := set, wal_writer := some [] }, { fs with wal := some [] })
    | some w =>
      if w = [] then
        .ok ({ set := set, wal_writer := some [] }, { fs with wal := some [] })
      else
        match entriesFrom (some w) set (mtimeTooOld now maxTrackAge) with
        | .error e => .error e
        | .ok set2 =>
          let fs2 := writeEntries set2 fs
          let fs3 := { fs2 with wal := none }
          .ok ({ set := set2, wal_writer := some [] }, { fs3 with wal := some [] })

/-- `Tracker::commit` (src/track.rs:173-184): rewrite the snapshot,
drop the WAL writer (its `BufWriter` flushes any buffered lines on
drop), then `remove_file` the WAL path — which fails when that file
does not exist. -/
def Tracker.commit (tr : Tracker) (fs : TrackerFs) :
    Except Str Unit × Tracker × TrackerFs :=
  let fs1 := writeEntries tr.set fs
  let fs2 := match tr.wal_writer, fs1.wal with
             | some buf, some w => { fs1 with wal := some (w ++ buf) }
             | _, _ => fs1
  let tr1 := { tr with wal_writer := none }
  match fs2.wal with
  | none => (.error ("remove_file: no such file".toList), tr1, fs2)
  | some _ => (.ok (), tr1, { fs2 with wal := none })

/-- Success flags for the two faultable steps of `Tracker::xferred`:
the buffered `Track::write` and the `flush`. -/
structure WalIO where
  write_ok : Bool
  flush_ok : Bool
deriving DecidableEq

/-- `Tracker::xferred` (src/track.rs:303-310): write the record to the
WAL writer, `replace` it into the in-memory set, then flush the WAL.
`self.wal.as_mut().unwrap()` panics when the writer is gone (after
`commit`), modelled as an error. The flush appends the buffered lines
to the WAL file when it exists. -/
def Tracker.xferred (io : WalIO) (tr : Tracker) (fs : TrackerFs)
    (path : Str) (filestat : FileStatus) :
    Except Str Unit × Tracker × TrackerFs :=
  let t := Track.fromSftpEntry path filestat
  match tr.wal_writer with
  | none => (.error ("unwrap on None".toList), tr, fs)
  | some buf =>
    if io.write_ok = false then (.error ("wal write failed".toList), tr, fs)
    else
      let tr1 := { tr with wal_writer := some (buf ++ [t.line]) }
      let tr2 := { tr1 with set := setReplace tr1.set t }
      if io.flush_ok = false then (.error ("wal flush failed".toList), tr2, fs)
      else
        (.ok (), { tr2 with wal_writer := some [] },
          { fs with wal := fs.wal.map (fun w => w ++ buf ++ [t.line]) })

/-- `Tracker::insert_path_and_status` (src/track.rs:296-301). -/
def Tracker.insertPathAndStatus (tr : Tracker) (path : Str) (filestat : FileStatus) :
    Tracker :=
  { tr with set := setInsert tr.set (Track.fromSftpEntry path filestat) }

/-- `Tracker::path_exists_in_tracker` (src/track.rs:258-261). -/
def pathExistsInTracker (set : TrackSet) (path : Str) : Bool :=
  setContains set (Track.fromJustPath path)

/-- `Tracker::check` (src/track.rs:264-278); the Rust version returns
`Result` but never fails. -/
def Tracker.check (set : TrackSet) (path : Str) (filestat : FileStatus) : TrackDelta :=
  let track := Track.fromSftpEntry path filestat
  match lookupPath set track.src_path with
  | none => TrackDelta.None
  | some e =>
    if e.size ≠ track.size then TrackDelta.SizeChange
    else if e.lastmod ≠ track.lastmod then TrackDelta.LastModChange
    else TrackDelta.Equal

/-! ## Lister filters (`src/main.rs`) -/

/-- The configuration fields consulted by the modelled code paths. -/
structure Cli where
  /-- `cli.re.is_match(bytes)` on the filename. -/
  re : Str → Bool
  include_dot_files : Bool
  disable_overwrite : Bool
  max_age : Nat
  min_age : Nat

/-- Model of `Path::file_name`: the last non-empty `/`-separated
component (paths without `.` / `..` components). -/
def fileName (p : Str) : Option Str :=
  ((splitOnChar '/' p).filter (fun c => c ≠ [])).getLast?

/-- `get_file_age` (src/main.rs:276-284): `now − mtime`, and 0 for a
"future" mtime (`duration_since` error branch). -/
def getFileAge (now : Nat) (filestat : FileStatus) : Nat :=
  now - filestat.mtime

/-- `keep_path` (src/main.rs:286-322): reject when no filename; then the
regex, the dot-file rule, and — only when `disable_overwrite` is set —
the tracker membership test. -/
def keepPath (cli : Cli) (path : Str) (set : TrackSet) : Bool :=
  match fileName path with
  | none => false
  | some s =>
    if !(cli.re s) then false
    else if s.take 1 = ['.'] && !cli.include_dot_files then false
    else if cli.disable_overwrite then
      if pathExistsInTracker set path then false else true
    else true

def FILE_TOO_OLD : Nat := 1
def FILE_TOO_YOUNG : Nat := 2
def FILE_NOT_A_FILE : Nat := 4
def SRC_FILE_NOT_CHANGED : Nat := 8

/-- `keep_status` (src/main.rs:329-361). -/
def keepStatus (cli : Cli) (now : Nat) (path : Str) (filestatus : FileStatus)
    (set : TrackSet) : Nat :=
  if filestatus.file_type = FileType.Regular then
    let age := getFileAge now filestatus
    if age > cli.max_age then FILE_TOO_OLD
    else if age < cli.min_age then FILE_TOO_YOUNG
    else if !cli.disable_overwrite then
      match Tracker.check set path filestatus with
      | TrackDelta.SizeChange => 0
      | TrackDelta.LastModChange => 0
      | TrackDelta.None => 0
      | TrackDelta.Equal => SRC_FILE_NOT_CHANGED
    else 0
  else FILE_NOT_A_FILE

/-! ## Transfer worker (`src/main.rs`) -/

/-- Outcomes of the per-file I/O operations of `xfer_file`, in program
order: stat of the final destination, open source, create temp
destination, copy (bytes on success), rename and set-permissions. -/
structure XferIo where
  dst_stat : Except Unit FileStatus
  open_src : Except Unit Unit
  create_dst : Except Unit Unit
  copy : Except Unit Nat
  ren : Except Unit Unit
  set_perm : Except Unit Unit

/-- `xfer_file` (src/main.rs:209-274): a destination-stat error is
silenced; a hit with `disable_overwrite` skips the file as `(0, 0)`;
open/create/copy errors propagate with `?`; a rename error (and a
set-permission error after a successful rename) is only logged, the
function still returns `(1, size)`. -/
def xferFile (cli : Cli) (io : XferIo) : Except Unit (Nat × Nat) :=
  match io.dst_stat, cli.disable_overwrite with
  | .ok _, true => .ok (0, 0)
  | _, _ =>
    match io.open_src with
    | .error e => .error e
    | .ok _ =>
      match io.create_dst with
      | .error e => .error e
      | .ok _ =>
        match io.copy with
        | .error e => .error e
        | .ok size => .ok (1, size)

/-- A work item of the channel: `None` is the shutdown sentinel. -/
abbrev WorkItem := Option (Str × FileStatus × XferIo)

/-- `xferring_inn` (src/main.rs:175-207): receive until the sentinel;
any `xfer_file` or `xferred` error propagates with `?`, ending the
worker (the caller `xferring` then logs it and reports `(0, 0)`); on
success the file is recorded in the tracker. An exhausted queue models
`recv` failing on a closed channel. WAL I/O is taken to succeed here
(its faults are modelled at `Tracker.xferred`). -/
def xferringInn (cli : Cli) :
    List WorkItem → Tracker → TrackerFs → Nat → Nat →
    Except Unit (Nat × Nat) × Tracker × TrackerFs
  | [], tr, fs, _, _ => (.error (), tr, fs)
  | none :: _, tr, fs, count, size => (.ok (count, size), tr, fs)
  | some (path, filestat, io) :: rest, tr, fs, count, size =>
    match xferFile cli io with
    | .error _ => (.error (), tr, fs)
    | .ok (c, s) =>
      match Tracker.xferred { write_ok := true, flush_ok := true } tr fs path filestat with
      | (.ok _, tr2, fs2) => xferringInn cli rest tr2 fs2 (count + c) (size + s)
      | (.error _, tr2, fs2) => (.error (), tr2, fs2)

/-! ## Copy engine (`src/copier.rs`) -/

/-- One source read, as observed by the reader thread: either
`read` fails, or it fills the buffer with `data` bytes (`wok` tells
whether the subsequent `write_all` of those bytes succeeds). -/
inductive ReadEv
  | rerr
  | rchunk (data : List Nat) (wok : Bool)
deriving DecidableEq

/-- Reading `data` into a recycled buffer: the first `data.length` bytes
are replaced, the rest keeps its stale content. -/
def fillBuf (buf data : List Nat) : List Nat :=
  data ++ buf.drop data.length

/-- The threaded copier collapsed to its FIFO semantics: the ring of
reusable buffers (queue A), the running byte count of the reader, and
the bytes written by the writer. An empty ring (ring size 0) and an
exhausted read source both model an everlasting blocking `recv`. -/
def copierGo : List ReadEv → List (List Nat) → Nat → List Nat →
    Except Str (Nat × List Nat)
  | _, [], _, _ => .error ("no buffer in the ring".toList)
  | [], _ :: _, _, _ => .error ("source yielded no further read".toList)
  | ReadEv.rerr :: _, _ :: _, _, _ =>
    .error ("error during transfer on read thread".toList)
  | ReadEv.rchunk d wok :: evs, buf :: ring, total, out =>
    let filled := fillBuf buf d
    let total2 := total + d.length
    if d.length = 0 then .ok (total2, out)
    else if wok then
      copierGo evs (ring ++ [filled]) total2 (out ++ filled.take d.length)
    else .error ("error during transfer on writer thread".toList)

/-- `copier` (src/copier.rs:120-192): prime the ring with `ringSize`
zeroed buffers of `buffSize` bytes, then run the two threads. Returns
the reader's byte total and (in the model) the bytes the writer wrote. -/
def copier (buffSize ringSize : Nat) (evs : List ReadEv) :
    Except Str (Nat × List Nat) :=
  copierGo evs (List.replicate ringSize (List.replicate buffSize 0)) 0 []

/-- The event list of a fault-free source delivering `chunks` and then
end-of-file. -/
def chunksToEvents (chunks : List (List Nat)) : List ReadEv :=
  chunks.map (fun c => ReadEv.rchunk c true) ++ [ReadEv.rchunk [] true]

/-! ## Derived notions used by the theorems -/

/-- The records a tracker file contributes: the parsable lines, kept
only when newer than the cutoff. -/
def parsedYoung (lines : List Str) (cutoff : Nat) : List Track :=
  (lines.filterMap (fun l => (Track.fromStr l).toOption)).filter
    (fun t => decide (cutoff < t.lastmod))

/-- The last record of a list carrying a given path. -/
def lastWithPath : List Track → Str → Option Track
  | [], _ => none
  | t :: ts, p =>
    match lastWithPath ts p with
    | some r => some r
    | none => if t.src_path == p then some t else none

/-! ## Lemmas: decimal serialisation round-trip -/

theorem digitChar_isDigit (d : Nat) (h : d < 10) : (Nat.digitChar d).isDigit = true := by
  interval_cases d <;> decide

theorem digitChar_toNat (d : Nat) (h : d < 10) : (Nat.digitChar d).toNat = 48 + d := by
  interval_cases d <;> decide

theorem natToDigitsAux_fuel (f g n : Nat) (hf : n < f) (hg : n < g) :
    natToDigitsAux f n = natToDigitsAux g n := by
  induction f generalizing g n with
  | zero => omega
  | succ f ih =>
    cases g with
    | zero => omega
    | succ g =>
      simp only [natToDigitsAux]
      by_cases h10 : n < 10
      · simp [h10]
      · have hd : n / 10 < n := Nat.div_lt_self (by omega) (by omega)
        simp only [h10, if_false]
        rw [ih g (n / 10) (by omega) (by omega)]

theorem natToDigitsAux_all_digit (f n : Nat) :
    (natToDigitsAux f n).all Char.isDigit = true := by
  induction f generalizing n with
  | zero => rfl
  | succ f ih =>
    simp only [natToDigitsAux]
    by_cases h10 : n < 10
    · simp [h10, digitChar_isDigit n h10]
    · simp only [h10, if_false, List.all_append, List.all_cons, List.all_nil]
      have : n % 10 < 10 := Nat.mod_lt _ (by omega)
      simp [ih, digitChar_isDigit _ this]

theorem natToDigits_all_digit (n : Nat) : (natToDigits n).all Char.isDigit = true :=
  natToDigitsAux_all_digit _ _

theorem natToDigitsAux_ne_nil (f n : Nat) (h : n < f) : natToDigitsAux f n ≠ [] := by
  cases f with
  | zero => omega
  | succ f =>
    simp only [natToDigitsAux]
    by_cases h10 : n < 10
    · simp [h10]
    · simp [h10]

theorem natToDigits_ne_nil (n : Nat) : natToDigits n ≠ [] :=
  natToDigitsAux_ne_nil _ _ (Nat.lt_succ_self n)

theorem digitsVal_append_single (s : Str) (c : Char) :
    digitsVal (s ++ [c]) = digitsVal s * 10 + (c.toNat - 48) := by
  simp [digitsVal, List.foldl_append]

theorem digitsVal_natToDigitsAux (f n : Nat) (h : n < f) :
    digitsVal (natToDigitsAux f n) = n := by
  induction f generalizing n with
  | zero => omega
  | succ f ih =>
    simp only [natToDigitsAux]
    by_cases h10 : n < 10
    · simp [h10, digitsVal, digitChar_toNat n h10]
    · have hd : n / 10 < n := Nat.div_lt_self (by omega) (by omega)
      have hm : n % 10 < 10 := Nat.mod_lt _ (by omega)
      simp only [h10, if_false, digitsVal_append_single]
      rw [ih (n / 10) (by omega), digitChar_toNat _ hm]
      omega

theorem digitsVal_natToDigits (n : Nat) : digitsVal (natToDigits n) = n :=
  digitsVal_natToDigitsAux _ _ (Nat.lt_succ_self n)

theorem isDigit_ne_plus (c : Char) (h : c.isDigit = true) : c ≠ '+' := by
  intro he
  subst he
  revert h
  decide

theorem isDigit_ne_nul (c : Char) (h : c.isDigit = true) : c ≠ nulChar := by
  intro he
  subst he
  revert h
  decide

theorem natToDigits_no_nul (n : Nat) : ∀ c ∈ natToDigits n, c ≠ nulChar := by
  intro c hc
  have hall := natToDigits_all_digit n
  rw [List.all_eq_true] at hall
  exact isDigit_ne_nul c (hall c hc)

theorem parseU64_natToDigits (n : Nat) (h : n < 2 ^ 64) :
    parseU64 (natToDigits n) = some n := by
  have hall := natToDigits_all_digit n
  have hne := natToDigits_ne_nil n
  have hval := digitsVal_natToDigits n
  unfold parseU64
  cases hd : natToDigits n with
  | nil => exact absurd hd hne
  | cons c cs =>
    have hcd : c.isDigit = true := by
      rw [hd, List.all_eq_true] at hall
      exact hall c (by simp)
    have hplus : c ≠ '+' := isDigit_ne_plus c hcd
    rw [hd] at hall hval
    simp only [List.head?_cons, List.tail_cons, Option.some.injEq]
    rw [if_neg hplus]
    simp only [ne_eq, reduceCtorEq, not_false_eq_true, hall, and_self, if_true, hval]
    rw [if_pos (by omega : n < 2 ^ 64)]

/-! ## Lemmas: field splitting and the record line round-trip -/

theorem splitOnChar_no_sep (sep : Char) (a : Str) (h : ∀ x ∈ a, x ≠ sep) :
    splitOnChar sep a = [a] := by
  induction a with
  | nil => rfl
  | cons c cs ih =>
    have hc : c ≠ sep := h c (by simp)
    simp only [splitOnChar, if_neg hc]
    rw [ih (fun x hx => h x (by simp [hx]))]

theorem splitOnChar_sep_append (sep : Char) (a b : Str) (h : ∀ x ∈ a, x ≠ sep) :
    splitOnChar sep (a ++ sep :: b) = a :: splitOnChar sep b := by
  induction a with
  | nil => simp [splitOnChar]
  | cons c cs ih =>
    have hc : c ≠ sep := h c (by simp)
    simp only [List.cons_append, splitOnChar, if_neg hc, List.append_eq]
    rw [ih (fun x hx => h x (by simp [hx]))]

theorem splitNul_line (t : Track) (hp : ∀ x ∈ t.src_path, x ≠ nulChar) :
    splitNul t.line = [t.src_path, natToDigits t.lastmod, natToDigits t.size] := by
  have h1 : ∀ x ∈ natToDigits t.lastmod, x ≠ nulChar := natToDigits_no_nul _
  have h2 : ∀ x ∈ natToDigits t.size, x ≠ nulChar := natToDigits_no_nul _
  unfold Track.line splitNul
  rw [show t.src_path ++ [nulChar] ++ natToDigits t.lastmod ++ [nulChar] ++ natToDigits t.size
        = t.src_path ++ nulChar :: (natToDigits t.lastmod ++ nulChar :: natToDigits t.size) by
      simp]
  rw [splitOnChar_sep_append _ _ _ hp, splitOnChar_sep_append _ _ _ h1,
      splitOnChar_no_sep _ _ h2]

/-- The serialisation round-trip at the level of one record: a line
written by `Track::write` parses back to the same record, provided the
path is NUL-free and the numbers fit `u64`. -/
theorem fromStr_line (t : Track) (hp : ∀ x ∈ t.src_path, x ≠ nulChar)
    (h1 : t.lastmod < 2 ^ 64) (h2 : t.size < 2 ^ 64) :
    Track.fromStr t.line = .ok t := by
  unfold Track.fromStr
  rw [splitNul_line t hp]
  simp [parseU64_natToDigits _ h1, parseU64_natToDigits _ h2]

/-! ## Lemmas: the path-keyed set -/

theorem setContains_iff (s : TrackSet) (t : Track) :
    setContains s t = true ↔ ∃ e ∈ s, e.src_path = t.src_path := by
  simp [setContains, List.any_eq_true, beq_iff_eq]

theorem lookupPath_eq_none_of_not_contains (s : TrackSet) (t : Track)
    (h : setContains s t = false) : lookupPath s t.src_path = none := by
  rw [lookupPath, List.find?_eq_none]
  intro e he
  simp only [beq_iff_eq]
  intro hep
  rw [← Bool.not_eq_true, setContains_iff] at h
  exact h ⟨e, he, hep⟩

theorem lookupPath_map_hit (s : TrackSet) (t : Track) (h : setContains s t = true) :
    lookupPath (s.map (fun e => if e.src_path == t.src_path then t else e))
      t.src_path = some t := by
  induction s with
  | nil => simp [setContains] at h
  | cons a s ih =>
    by_cases ha : a.src_path = t.src_path
    · simp [lookupPath, List.find?_cons, ha]
    · have ha' : (a.src_path == t.src_path) = false := by simp [ha]
      have hc : setContains s t = true := by
        simp only [setContains, List.any_cons, ha', Bool.false_or] at h
        exact h
      simp only [List.map_cons, ha', Bool.false_eq_true, if_false, lookupPath,
        List.find?_cons, ha'] at *
      exact ih hc

theorem lookupPath_map_miss (s : TrackSet) (t : Track) (p : Str)
    (hne : t.src_path ≠ p) :
    lookupPath (s.map (fun e => if e.src_path == t.src_path then t else e)) p =
      lookupPath s p := by
  induction s with
  | nil => rfl
  | cons a s ih =>
    by_cases ha : a.src_path = t.src_path
    · have ha' : (a.src_path == t.src_path) = true := by simp [ha]
      have hap : (a.src_path == p) = false := by simp [ha, hne]
      have htp : (t.src_path == p) = false := by simp [hne]
      simp only [List.map_cons, ha', if_true, lookupPath, List.find?_cons, htp, hap]
      exact ih
    · have ha' : (a.src_path == t.src_path) = false := by simp [ha]
      simp only [List.map_cons, ha', Bool.false_eq_true, if_false, lookupPath,
        List.find?_cons]
      cases hap : (a.src_path == p) with
      | true => rfl
      | false => exact ih

theorem lookupPath_append_single (s : TrackSet) (t : Track) (p : Str) :
    lookupPath (s ++ [t]) p =
      (lookupPath s p).or (if t.src_path = p then some t else none) := by
  rw [lookupPath, List.find?_append]
  congr 1
  simp only [lookupPath, List.find?_cons, List.find?_nil]
  by_cases h : t.src_path = p
  · have hb : (t.src_path == p) = true := by simp [h]
    rw [hb, if_pos h]
  · have hb : (t.src_path == p) = false := by simp [h]
    rw [hb, if_neg h]

/-- `HashSet::replace` at the level of path lookup: the replaced path now
maps to the new record, all other paths are untouched. -/
theorem lookupPath_setReplace (s : TrackSet) (t : Track) (p : Str) :
    lookupPath (setReplace s t) p =
      if t.src_path = p then some t else lookupPath s p := by
  unfold setReplace
  by_cases hc : setContains s t = true
  · rw [if_pos hc]
    by_cases hp : t.src_path = p
    · subst hp
      rw [if_pos rfl]
      exact lookupPath_map_hit s t hc
    · rw [if_neg hp]
      exact lookupPath_map_miss s t p hp
  · rw [if_neg hc, lookupPath_append_single]
    by_cases hp : t.src_path = p
    · subst hp
      rw [lookupPath_eq_none_of_not_contains s t (by simpa using hc)]
      simp
    · simp only [if_neg hp]
      cases lookupPath s p <;> simp

theorem mem_setReplace (s : TrackSet) (t e : Track) (h : e ∈ setReplace s t) :
    e ∈ s ∨ e = t := by
  unfold setReplace at h
  by_cases hc : setContains s t = true
  · rw [if_pos hc] at h
    obtain ⟨a, ha, hae⟩ := List.mem_map.mp h
    by_cases hat : (a.src_path == t.src_path) = true
    · rw [if_pos hat] at hae
      exact Or.inr hae.symm
    · rw [if_neg hat] at hae
      exact Or.inl (hae ▸ ha)
  · rw [if_neg hc] at h
    rcases List.mem_append.mp h with h | h
    · exact Or.inl h
    · exact Or.inr (List.mem_singleton.mp h)

theorem lookupPath_foldl_setReplace (ys : List Track) (s : TrackSet) (p : Str) :
    lookupPath (ys.foldl setReplace s) p =
      match lastWithPath ys p with
      | some r => some r
      | none => lookupPath s p := by
  induction ys generalizing s with
  | nil => rfl
  | cons y ys ih =>
    simp only [List.foldl_cons, lastWithPath]
    rw [ih]
    cases h : lastWithPath ys p with
    | some r => rfl
    | none =>
      rw [lookupPath_setReplace]
      by_cases hy : y.src_path = p
      · simp [hy]
      · simp only [if_neg hy]
        have : (y.src_path == p) = false := by simp [hy]
        rw [this]
        simp

theorem mem_foldl_setReplace (ys : List Track) (s : TrackSet) (e : Track)
    (h : e ∈ ys.foldl setReplace s) : e ∈ s ∨ e ∈ ys := by
  induction ys generalizing s with
  | nil => exact Or.inl h
  | cons y ys ih =>
    simp only [List.foldl_cons] at h
    rcases ih (setReplace s y) h with h' | h'
    · rcases mem_setReplace s y e h' with h'' | h''
      · exact Or.inl h''
      · exact Or.inr (by simp [h''])
    · exact Or.inr (by simp [h'])

/-! ## Lemmas: `lastWithPath` -/

theorem lastWithPath_eq_none (ys : List Track) (p : Str) :
    lastWithPath ys p = none ↔ ∀ t ∈ ys, t.src_path ≠ p := by
  induction ys with
  | nil => simp [lastWithPath]
  | cons y ys ih =>
    simp only [lastWithPath]
    cases h : lastWithPath ys p with
    | some r =>
      simp only [reduceCtorEq, false_iff]
      intro hall
      have := (ih.mpr (fun t ht => hall t (by simp [ht])))
      rw [this] at h
      exact absurd h (by simp)
    | none =>
      by_cases hy : y.src_path = p
      · simp [hy]
      · have : (y.src_path == p) = false := by simp [hy]
        simp only [this, Bool.false_eq_true, if_false, List.mem_cons]
        constructor
        · intro _ t ht
          rcases ht with rfl | ht
          · exact hy
          · exact ih.mp h t ht
        · intro _
          trivial

theorem lastWithPath_mem (ys : List Track) (p : Str) (t : Track)
    (h : lastWithPath ys p = some t) : t ∈ ys ∧ t.src_path = p := by
  induction ys with
  | nil => simp [lastWithPath] at h
  | cons y ys ih =>
    simp only [lastWithPath] at h
    cases h' : lastWithPath ys p with
    | some r =>
      rw [h'] at h
      obtain ⟨hm, hp⟩ := ih (h ▸ h')
      exact ⟨by simp [hm], hp⟩
    | none =>
      rw [h'] at h
      by_cases hy : (y.src_path == p) = true
      · rw [if_pos hy] at h
        cases h
        exact ⟨by simp, by simpa using hy⟩
      · rw [if_neg hy] at h
        cases h

theorem lastWithPath_of_mem_nodup (ys : List Track) (t : Track) (hm : t ∈ ys)
    (hnd : (ys.map Track.src_path).Nodup) : lastWithPath ys t.src_path = some t := by
  induction ys with
  | nil => simp at hm
  | cons y ys ih =>
    simp only [List.map_cons, List.nodup_cons] at hnd
    rcases List.mem_cons.mp hm with rfl | hm'
    · have hnone : lastWithPath ys t.src_path = none := by
        rw [lastWithPath_eq_none]
        intro e he hep
        exact hnd.1 (by rw [← hep]; exact List.mem_map_of_mem _ he)
      simp [lastWithPath, hnone]
    · have := ih hm' hnd.2
      simp [lastWithPath, this]

/-! ## Lemmas: the parse loop of `entries_from` -/

theorem parsedYoung_nil (cutoff : Nat) : parsedYoung [] cutoff = [] := rfl

theorem parsedYoung_cons_error (l : Str) (ls : List Str) (cutoff : Nat) (e : Str)
    (h : Track.fromStr l = .error e) :
    parsedYoung (l :: ls) cutoff = parsedYoung ls cutoff := by
  simp [parsedYoung, List.filterMap_cons, h, Except.toOption]

theorem parsedYoung_cons_young (l : Str) (ls : List Str) (cutoff : Nat) (t : Track)
    (h : Track.fromStr l = .ok t) (hy : cutoff < t.lastmod) :
    parsedYoung (l :: ls) cutoff = t :: parsedYoung ls cutoff := by
  simp [parsedYoung, List.filterMap_cons, h, Except.toOption, List.filter_cons, hy]

theorem parsedYoung_cons_old (l : Str) (ls : List Str) (cutoff : Nat) (t : Track)
    (h : Track.fromStr l = .ok t) (hy : ¬ cutoff < t.lastmod) :
    parsedYoung (l :: ls) cutoff = parsedYoung ls cutoff := by
  simp [parsedYoung, List.filterMap_cons, h, Except.toOption, List.filter_cons, hy]

theorem mem_parsedYoung_young (lines : List Str) (cutoff : Nat) (t : Track)
    (h : t ∈ parsedYoung lines cutoff) : cutoff < t.lastmod := by
  have := List.of_mem_filter h
  simpa using this

theorem setInsert_eq_setReplace (s : TrackSet) (t : Track)
    (h : setContains s t = false) : setInsert s t = setReplace s t := by
  unfold setInsert setReplace
  rw [if_neg (by simp [h]), if_neg (by simp [h])]

theorem entriesStep_error (cutoff : Nat) (s : TrackSet) (k : Nat) (l : Str) (e : Str)
    (h : Track.fromStr l = .error e) : entriesStep cutoff (s, k) l = (s, k) := by
  simp [entriesStep, h]

theorem entriesStep_ok_young (cutoff : Nat) (s : TrackSet) (k : Nat) (l : Str) (t : Track)
    (h : Track.fromStr l = .ok t) (hy : cutoff < t.lastmod) :
    entriesStep cutoff (s, k) l = (setReplace s t, k + 1) := by
  simp only [entriesStep, h, if_pos hy]
  by_cases hc : setContains s t = true
  · rw [if_pos hc]
  · rw [if_neg hc, setInsert_eq_setReplace s t (by simpa using hc)]

theorem entriesStep_ok_old (cutoff : Nat) (s : TrackSet) (k : Nat) (l : Str) (t : Track)
    (h : Track.fromStr l = .ok t) (hy : ¬ cutoff < t.lastmod) :
    entriesStep cutoff (s, k) l = (s, k) := by
  simp [entriesStep, h, hy]

theorem foldl_entriesStep (cutoff : Nat) (lines : List Str) :
    ∀ (s : TrackSet) (k : Nat),
      lines.foldl (entriesStep cutoff) (s, k) =
        ((parsedYoung lines cutoff).foldl setReplace s,
          k + (parsedYoung lines cutoff).length) := by
  induction lines with
  | nil => intro s k; simp [parsedYoung_nil]
  | cons l ls ih =>
    intro s k
    rw [List.foldl_cons]
    cases h : Track.fromStr l with
    | error e =>
      rw [entriesStep_error cutoff s k l e h, parsedYoung_cons_error l ls cutoff e h, ih]
    | ok t =>
      by_cases hy : cutoff < t.lastmod
      · rw [entriesStep_ok_young cutoff s k l t h hy,
          parsedYoung_cons_young l ls cutoff t h hy, ih]
        simp only [List.foldl_cons, List.length_cons, Prod.mk.injEq]
        exact ⟨trivial, by omega⟩
      · rw [entriesStep_ok_old cutoff s k l t h hy,
          parsedYoung_cons_old l ls cutoff t h hy, ih]

theorem entriesFrom_some_eq (lines : List Str) (s : TrackSet) (cutoff : Nat) :
    entriesFrom (some lines) s cutoff =
      if lines ≠ [] ∧ (parsedYoung lines cutoff).length = 0 then
        .error ("Fishy tracker file".toList)
      else .ok ((parsedYoung lines cutoff).foldl setReplace s) := by
  show (if lines ≠ [] ∧ (lines.foldl (entriesStep cutoff) (s, 0)).2 = 0 then
          (Except.error ("Fishy tracker file".toList) : Except Str TrackSet)
        else .ok (lines.foldl (entriesStep cutoff) (s, 0)).1) = _
  rw [foldl_entriesStep]
  simp

theorem entriesFrom_some_isOk_false_iff (lines : List Str) (s : TrackSet) (cutoff : Nat) :
    (entriesFrom (some lines) s cutoff).isOk = false ↔
      lines ≠ [] ∧ parsedYoung lines cutoff = [] := by
  rw [entriesFrom_some_eq]
  by_cases h : lines ≠ [] ∧ (parsedYoung lines cutoff).length = 0
  · rw [if_pos h]
    simp only [Except.isOk, Except.toBool, true_iff]
    exact ⟨h.1, List.length_eq_zero.mp h.2⟩
  · rw [if_neg h]
    simp only [Except.isOk, Except.toBool, Bool.true_eq_false, false_iff]
    intro ⟨h1, h2⟩
    exact h ⟨h1, by simp [h2]⟩

theorem entriesFrom_some_ok (lines : List Str) (s s2 : TrackSet) (cutoff : Nat)
    (h : entriesFrom (some lines) s cutoff = .ok s2) :
    s2 = (parsedYoung lines cutoff).foldl setReplace s := by
  rw [entriesFrom_some_eq] at h
  by_cases hc : lines ≠ [] ∧ (parsedYoung lines cutoff).length = 0
  · rw [if_pos hc] at h
    cases h
  · rw [if_neg hc] at h
    cases h
    rfl

theorem entriesFrom_ok (file : Option (List Str)) (s s2 : TrackSet) (cutoff : Nat)
    (h : entriesFrom file s cutoff = .ok s2) :
    s2 = (parsedYoung (file.getD []) cutoff).foldl setReplace s := by
  cases file with
  | none =>
    cases h
    simp [parsedYoung_nil]
  | some lines => exact entriesFrom_some_ok lines s s2 cutoff h

/-! ## Lemmas: `Tracker::new` -/

theorem new_ok_set (fs : TrackerFs) (now maxAge : Nat) (tr : Tracker) (fs2 : TrackerFs)
    (h : Tracker.new fs now maxAge = .ok (tr, fs2)) :
    tr.set =
      (parsedYoung (fs.wal.getD []) (mtimeTooOld now maxAge)).foldl setReplace
        ((parsedYoung (fs.snapshot.getD []) (mtimeTooOld now maxAge)).foldl
          setReplace []) := by
  unfold Tracker.new at h
  split at h
  · cases h
  · rename_i set1 hsnap
    have hset1 := entriesFrom_ok _ _ _ _ hsnap
    split at h
    · rename_i hwal
      cases h
      simp only [hwal, Option.getD_none, parsedYoung_nil, List.foldl_nil]
      exact hset1
    · rename_i w hwal
      split at h
      · rename_i hw
        cases h
        subst hw
        simp only [hwal, Option.getD_some, parsedYoung_nil, List.foldl_nil]
        exact hset1
      · split at h
        · cases h
        · rename_i set2 hrep
          cases h
          have h2 := entriesFrom_some_ok _ _ _ _ hrep
          simp only [hwal, Option.getD_some]
          rw [h2, hset1]

/-! ## Lemmas: the copy engine -/

theorem copierGo_chunks (chunks : List (List Nat)) (hc : ∀ c ∈ chunks, c ≠ []) :
    ∀ (ring : List (List Nat)) (total : Nat) (out : List Nat), ring ≠ [] →
      copierGo (chunksToEvents chunks) ring total out =
        .ok (total + chunks.flatten.length, out ++ chunks.flatten) := by
  induction chunks with
  | nil =>
    intro ring total out hr
    cases ring with
    | nil => exact absurd rfl hr
    | cons buf ring' =>
      simp [chunksToEvents, copierGo]
  | cons c cs ih =>
    intro ring total out hr
    cases ring with
    | nil => exact absurd rfl hr
    | cons buf ring' =>
      have hcne : c ≠ [] := hc c (by simp)
      have hlen : ¬ c.length = 0 := by simpa using hcne
      simp only [chunksToEvents, List.map_cons, List.cons_append, copierGo, hlen,
        if_false, if_true]
      have htake : (fillBuf buf c).take c.length = c := by
        unfold fillBuf
        exact List.take_left c (buf.drop c.length)
      rw [htake]
      rw [show (List.map (fun c => ReadEv.rchunk c true) cs).append [ReadEv.rchunk [] true]
            = chunksToEvents cs from rfl]
      rw [ih (fun x hx => hc x (by simp [hx])) (ring' ++ [fillBuf buf c]) _ _ (by simp)]
      simp only [List.flatten_cons, List.length_append, List.append_assoc]
      congr 2
      omega

theorem copierGo_read_error (chunks : List (List Nat)) (hc : ∀ c ∈ chunks, c ≠ [])
    (tail : List ReadEv) :
    ∀ (ring : List (List Nat)) (total : Nat) (out : List Nat), ring ≠ [] →
      (copierGo (chunks.map (fun c => ReadEv.rchunk c true) ++ ReadEv.rerr :: tail)
        ring total out).isOk = false := by
  induction chunks with
  | nil =>
    intro ring total out hr
    cases ring with
    | nil => exact absurd rfl hr
    | cons buf ring' => simp [copierGo, Except.isOk, Except.toBool]
  | cons c cs ih =>
    intro ring total out hr
    cases ring with
    | nil => exact absurd rfl hr
    | cons buf ring' =>
      have hcne : c ≠ [] := hc c (by simp)
      have hlen : ¬ c.length = 0 := by simpa using hcne
      simp only [List.map_cons, List.cons_append, copierGo, hlen, if_false, if_true]
      exact ih (fun x hx => hc x (by simp [hx])) (ring' ++ [fillBuf buf c]) _ _ (by simp)

theorem copierGo_write_error (chunks : List (List Nat)) (hc : ∀ c ∈ chunks, c ≠ [])
    (d : List Nat) (hd : d ≠ []) (tail : List ReadEv) :
    ∀ (ring : List (List Nat)) (total : Nat) (out : List Nat), ring ≠ [] →
      (copierGo (chunks.map (fun c => ReadEv.rchunk c true) ++
          ReadEv.rchunk d false :: tail) ring total out).isOk = false := by
  induction chunks with
  | nil =>
    intro ring total out hr
    cases ring with
    | nil => exact absurd rfl hr
    | cons buf ring' =>
      have hlen : ¬ d.length = 0 := by simpa using hd
      simp [copierGo, hlen, Except.isOk, Except.toBool]
  | cons c cs ih =>
    intro ring total out hr
    cases ring with
    | nil => exact absurd rfl hr
    | cons buf ring' =>
      have hcne : c ≠ [] := hc c (by simp)
      have hlen : ¬ c.length = 0 := by simpa using hcne
      simp only [List.map_cons, List.cons_append, copierGo, hlen, if_false, if_true]
      exact ih (fun x hx => hc x (by simp [hx])) (ring' ++ [fillBuf buf c]) _ _ (by simp)

/-! ## Lemmas: rebuilding a set from distinct fresh records -/

theorem setContains_append (s : TrackSet) (y t : Track) :
    setContains (s ++ [y]) t = (setContains s t || (y.src_path == t.src_path)) := by
  simp [setContains]

theorem foldl_setReplace_fresh (ys : List Track) :
    ∀ (s : TrackSet), (∀ y ∈ ys, setContains s y = false) →
      (ys.map Track.src_path).Nodup → ys.foldl setReplace s = s ++ ys := by
  induction ys with
  | nil => intro s _ _; simp
  | cons y ys ih =>
    intro s hfresh hnd
    simp only [List.map_cons, List.nodup_cons] at hnd
    have hy : setContains s y = false := hfresh y (by simp)
    have hrep : setReplace s y = s ++ [y] := by
      unfold setReplace
      rw [if_neg (by simp [hy])]
    simp only [List.foldl_cons, hrep]
    rw [ih (s ++ [y]) ?fresh hnd.2]
    · simp
    case fresh =>
      intro z hz
      rw [setContains_append]
      have h1 : setContains s z = false := hfresh z (by simp [hz])
      have h2 : y.src_path ≠ z.src_path := by
        intro he
        exact hnd.1 (he ▸ List.mem_map_of_mem _ hz)
      simp [h1, h2]

/-- `Tracker::xferred` when both the WAL write and the flush succeed. -/
theorem xferred_ok_eq (tr : Tracker) (fs : TrackerFs) (path : Str)
    (st : FileStatus) (buf w : List Str)
    (hw : tr.wal_writer = some buf) (hf : fs.wal = some w) :
    Tracker.xferred ⟨true, true⟩ tr fs path st =
      (.ok (), { set := setReplace tr.set (Track.fromSftpEntry path st),
                 wal_writer := some [] },
       { fs with
          wal := some (w ++ buf ++ [(Track.fromSftpEntry path st).line]) }) := by
  simp [Tracker.xferred, hw, hf]

/-! ## Claims -/

/-- C1 (counterexample): `Tracker::xferred` with a failing WAL flush
returns an error, yet the record is already in the in-memory set — the
set is updated before the flush, refuting "whenever xferred returns an
error the in-memory set is unchanged". -/
theorem c1_counterexample :
    ((Tracker.xferred ⟨true, false⟩ ⟨[], some []⟩ ⟨none, none, some []⟩
        ['a'] ⟨FileType.Regular, 2, 1⟩).1.isOk = false) ∧
    (Tracker.xferred ⟨true, false⟩ ⟨[], some []⟩ ⟨none, none, some []⟩
        ['a'] ⟨FileType.Regular, 2, 1⟩).2.1.set ≠ [] := by
  decide

/-- C1 (amended): `xferred` serialises the record to the WAL writer and a
failing write leaves the set unchanged; the in-memory replace happens
next, and only then the flush — so a flush failure returns an error with
the record already inserted; on success the WAL file holds the record
before `xferred` returns. -/
theorem c1_xferred_wal_order (io : WalIO) (tr : Tracker) (fs : TrackerFs)
    (path : Str) (st : FileStatus) (buf w : List Str)
    (hw : tr.wal_writer = some buf) (hf : fs.wal = some w) :
    (io.write_ok = false →
      (Tracker.xferred io tr fs path st).1.isOk = false ∧
      (Tracker.xferred io tr fs path st).2.1.set = tr.set) ∧
    (io.write_ok = true → io.flush_ok = false →
      (Tracker.xferred io tr fs path st).1.isOk = false ∧
      (Tracker.xferred io tr fs path st).2.1.set
        = setReplace tr.set (Track.fromSftpEntry path st)) ∧
    (io.write_ok = true → io.flush_ok = true →
      Tracker.xferred io tr fs path st =
        (.ok (), { set := setReplace tr.set (Track.fromSftpEntry path st),
                   wal_writer := some [] },
         { fs with
            wal := some (w ++ buf ++ [(Track.fromSftpEntry path st).line]) })) := by
  refine ⟨?_, ?_, ?_⟩
  · intro h1
    simp [Tracker.xferred, hw, h1, Except.isOk, Except.toBool]
  · intro h1 h2
    simp [Tracker.xferred, hw, h1, h2, Except.isOk, Except.toBool]
  · intro h1 h2
    simp [Tracker.xferred, hw, hf, h1, h2]

/-- C1 (witness). -/
theorem c1_xferred_wal_order_witness :
    (Tracker.xferred ⟨true, true⟩ ⟨[], some []⟩ ⟨none, none, some []⟩
        ['a'] ⟨FileType.Regular, 2, 1⟩) =
      (.ok (), { set := setReplace [] (Track.fromSftpEntry ['a'] ⟨FileType.Regular, 2, 1⟩),
                 wal_writer := some [] },
       { snapshot := none, tmp := none,
         wal := some ([] ++ [] ++
           [(Track.fromSftpEntry ['a'] ⟨FileType.Regular, 2, 1⟩).line]) }) :=
  (c1_xferred_wal_order ⟨true, true⟩ ⟨[], some []⟩ ⟨none, none, some []⟩
    ['a'] ⟨FileType.Regular, 2, 1⟩ [] [] rfl rfl).2.2 rfl rfl

/-- C2 (counterexample): a worker whose first file fails to open returns
an error without taking the next work item (the claim says it loops back
to receive), and a worker whose rename fails still records the file as
transferred in the tracker (the claim says a failed file is not
recorded). -/
theorem c2_counterexample :
    (xferringInn ⟨fun _ => true, false, false, 10, 0⟩
        [some (['a'], ⟨FileType.Regular, 2, 1⟩,
            ⟨.error (), .error (), .ok (), .ok 7, .ok (), .ok ()⟩),
         some (['b'], ⟨FileType.Regular, 2, 1⟩,
            ⟨.error (), .ok (), .ok (), .ok 7, .ok (), .ok ()⟩),
         none]
        ⟨[], some []⟩ ⟨none, none, some []⟩ 0 0 =
      (.error (), ⟨[], some []⟩, ⟨none, none, some []⟩)) ∧
    (xferringInn ⟨fun _ => true, false, false, 10, 0⟩
        [some (['a'], ⟨FileType.Regular, 2, 1⟩,
            ⟨.error (), .ok (), .ok (), .ok 7, .error (), .ok ()⟩),
         none]
        ⟨[], some []⟩ ⟨none, none, some []⟩ 0 0 =
      (.ok (1, 7), ⟨[⟨['a'], 1, 2⟩], some []⟩,
        ⟨none, none, some ["a\x001\x002".toList]⟩)) := by
  constructor <;> rfl

/-- The result of `xfer_file` outside the overwrite-skip path, split on
the three fallible transfer steps. -/
theorem xferFile_not_skip (cli : Cli) (io : XferIo)
    (hskip : ¬ (io.dst_stat.isOk = true ∧ cli.disable_overwrite = true)) :
    xferFile cli io =
      match io.open_src, io.create_dst, io.copy with
      | .error _, _, _ => .error ()
      | .ok _, .error _, _ => .error ()
      | .ok _, .ok _, .error _ => .error ()
      | .ok _, .ok _, .ok n => .ok (1, n) := by
  cases hds : io.dst_stat with
  | error e =>
    cases e
    unfold xferFile
    rw [hds]
    cases io.open_src with
    | error e => cases e; rfl
    | ok v =>
      cases io.create_dst with
      | error e => cases e; rfl
      | ok v2 =>
        cases io.copy with
        | error e => cases e; rfl
        | ok n => rfl
  | ok st =>
    cases hdo : cli.disable_overwrite with
    | true => exact absurd ⟨by rw [hds]; rfl, hdo⟩ hskip
    | false =>
      unfold xferFile
      rw [hds, hdo]
      cases io.open_src with
      | error e => cases e; rfl
      | ok v =>
        cases io.create_dst with
        | error e => cases e; rfl
        | ok v2 =>
          cases io.copy with
          | error e => cases e; rfl
          | ok n => rfl

/-- C2 (amended): for a work item outside the overwrite-skip path, an
open/create/copy failure ends the worker with an error, the remaining
queue unprocessed and the tracker untouched; when those three steps
succeed, `xfer_file` returns `(1, size)` regardless of the rename
outcome, and the worker records the file in the tracker and loops — so a
rename failure does not terminate the worker but the file is still
recorded as transferred. -/
theorem c2_worker_error_paths (cli : Cli) (path : Str) (st : FileStatus)
    (io : XferIo) (rest : List WorkItem) (tr : Tracker) (fs : TrackerFs)
    (count size n : Nat)
    (hskip : ¬ (io.dst_stat.isOk = true ∧ cli.disable_overwrite = true)) :
    ((io.open_src.isOk = false ∨ io.create_dst.isOk = false ∨
        io.copy.isOk = false) →
      xferringInn cli (some (path, st, io) :: rest) tr fs count size =
        (.error (), tr, fs)) ∧
    (io.open_src = .ok () → io.create_dst = .ok () → io.copy = .ok n →
      xferFile cli io = .ok (1, n)) ∧
    (∀ buf w, io.open_src = .ok () → io.create_dst = .ok () → io.copy = .ok n →
      tr.wal_writer = some buf → fs.wal = some w →
      xferringInn cli (some (path, st, io) :: rest) tr fs count size =
        xferringInn cli rest
          { set := setReplace tr.set (Track.fromSftpEntry path st),
            wal_writer := some [] }
          { fs with
              wal := some (w ++ buf ++ [(Track.fromSftpEntry path st).line]) }
          (count + 1) (size + n)) := by
  have hxf := xferFile_not_skip cli io hskip
  refine ⟨?_, ?_, ?_⟩
  · intro hbad
    have herr : xferFile cli io = .error () := by
      rw [hxf]
      cases hos : io.open_src with
      | error e => cases e; rfl
      | ok v =>
        cases hcd : io.create_dst with
        | error e => cases e; rfl
        | ok v2 =>
          cases hcp : io.copy with
          | error e => cases e; rfl
          | ok m =>
            exfalso
            rcases hbad with h | h | h <;>
              simp [hos, hcd, hcp, Except.isOk, Except.toBool] at h
    simp [xferringInn, herr]
  · intro h1 h2 h3
    rw [hxf, h1, h2, h3]
  · intro buf w h1 h2 h3 hwr hfw
    have hok : xferFile cli io = .ok (1, n) := by rw [hxf, h1, h2, h3]
    have hxferred := xferred_ok_eq tr fs path st buf w hwr hfw
    simp [xferringInn, hok, hxferred]

/-- C2 (witness). -/
theorem c2_worker_error_paths_witness :
    xferringInn ⟨fun _ => true, false, false, 10, 0⟩
        [some (['a'], ⟨FileType.Regular, 2, 1⟩,
            ⟨.error (), .error (), .ok (), .ok 7, .ok (), .ok ()⟩)]
        ⟨[], some []⟩ ⟨none, none, some []⟩ 0 0 =
      (.error (), ⟨[], some []⟩, ⟨none, none, some []⟩) :=
  (c2_worker_error_paths ⟨fun _ => true, false, false, 10, 0⟩ ['a']
      ⟨FileType.Regular, 2, 1⟩ ⟨.error (), .error (), .ok (), .ok 7, .ok (), .ok ()⟩
      [] ⟨[], some []⟩ ⟨none, none, some []⟩ 0 0 7
      (by intro h; exact absurd h.1 (by decide))).1
    (Or.inl (by decide))

/-- C3 (confirmed): after a successful `Tracker::new`, provided each
input file carries at most one surviving record per path, every
not-too-old record of the WAL is in the set, every not-too-old record of
the snapshot whose path has no surviving WAL record is in the set (WAL
wins on conflict, path-only identity), and every set member is a
not-too-old record of one of the two files. -/
theorem c3_new_loads_union (fs : TrackerFs) (now maxAge : Nat) (tr : Tracker)
    (fs2 : TrackerFs) (h : Tracker.new fs now maxAge = .ok (tr, fs2))
    (hns : ((parsedYoung (fs.snapshot.getD []) (mtimeTooOld now maxAge)).map
        Track.src_path).Nodup)
    (hnw : ((parsedYoung (fs.wal.getD []) (mtimeTooOld now maxAge)).map
        Track.src_path).Nodup) :
    (∀ t ∈ parsedYoung (fs.wal.getD []) (mtimeTooOld now maxAge),
        lookupPath tr.set t.src_path = some t) ∧
    (∀ t ∈ parsedYoung (fs.snapshot.getD []) (mtimeTooOld now maxAge),
        (∀ u ∈ parsedYoung (fs.wal.getD []) (mtimeTooOld now maxAge),
            u.src_path ≠ t.src_path) →
        lookupPath tr.set t.src_path = some t) ∧
    (∀ t ∈ tr.set, mtimeTooOld now maxAge < t.lastmod ∧
        (t ∈ parsedYoung (fs.snapshot.getD []) (mtimeTooOld now maxAge) ∨
         t ∈ parsedYoung (fs.wal.getD []) (mtimeTooOld now maxAge))) := by
  have hset := new_ok_set fs now maxAge tr fs2 h
  refine ⟨?_, ?_, ?_⟩
  · intro t ht
    rw [hset, lookupPath_foldl_setReplace,
      lastWithPath_of_mem_nodup _ t ht hnw]
  · intro t ht hnowal
    have hwal_none :
        lastWithPath (parsedYoung (fs.wal.getD []) (mtimeTooOld now maxAge))
          t.src_path = none := by
      rw [lastWithPath_eq_none]
      exact hnowal
    rw [hset, lookupPath_foldl_setReplace, hwal_none,
      lookupPath_foldl_setReplace, lastWithPath_of_mem_nodup _ t ht hns]
  · intro t ht
    rw [hset] at ht
    rcases mem_foldl_setReplace _ _ _ ht with h1 | h1
    · rcases mem_foldl_setReplace _ _ _ h1 with h2 | h2
      · simp at h2
      · exact ⟨mem_parsedYoung_young _ _ _ h2, Or.inl h2⟩
    · exact ⟨mem_parsedYoung_young _ _ _ h1, Or.inr h1⟩

/-- C3 (witness). -/
theorem c3_new_loads_union_witness :
    lookupPath [⟨['a'], 5, 7⟩, ⟨['b'], 6, 8⟩] ['b'] = some ⟨['b'], 6, 8⟩ :=
  (c3_new_loads_union
      ⟨some ["a\x005\x007".toList], none, some ["b\x006\x008".toList]⟩ 100 100
      ⟨[⟨['a'], 5, 7⟩, ⟨['b'], 6, 8⟩], some []⟩
      ⟨some ["a\x005\x007".toList, "b\x006\x008".toList], none, some []⟩
      (by decide) (by decide) (by decide)).1
    ⟨['b'], 6, 8⟩ (by decide)

/-- C4 (counterexample): a first `commit` on a live tracker succeeds, but
an immediately repeated `commit` fails — `remove_file` errors because the
WAL file is already gone — refuting "commit is idempotent on this clean
state". -/
theorem c4_counterexample :
    ((Tracker.commit ⟨[⟨['a'], 5, 7⟩], some []⟩ ⟨some [], none, some []⟩).1
      = .ok ()) ∧
    ((Tracker.commit
        (Tracker.commit ⟨[⟨['a'], 5, 7⟩], some []⟩ ⟨some [], none, some []⟩).2.1
        (Tracker.commit ⟨[⟨['a'], 5, 7⟩], some []⟩
          ⟨some [], none, some []⟩).2.2).1.isOk = false) := by
  decide

/-- C4 (amended): after a successful `commit` the snapshot holds exactly
the serialised in-memory set and no WAL file exists; a second `commit`
rewrites the same snapshot and leaves both the tracker and the disk
state unchanged, but returns an error from deleting the already-absent
WAL file. -/
theorem c4_commit_clean_state (tr : Tracker) (fs : TrackerFs) :
    ((Tracker.commit tr fs).1.isOk = true →
      (Tracker.commit tr fs).2.2.snapshot = some (tr.set.map Track.line) ∧
      (Tracker.commit tr fs).2.2.wal = none ∧
      (Tracker.commit tr fs).2.1.set = tr.set) ∧
    ((Tracker.commit tr fs).1.isOk = true →
      (Tracker.commit (Tracker.commit tr fs).2.1
          (Tracker.commit tr fs).2.2).1.isOk = false ∧
      (Tracker.commit (Tracker.commit tr fs).2.1
          (Tracker.commit tr fs).2.2).2 = (Tracker.commit tr fs).2) := by
  cases hw : fs.wal with
  | none =>
    cases hb : tr.wal_writer <;>
      simp [Tracker.commit, writeEntries, hw, hb, Except.isOk, Except.toBool]
  | some w =>
    cases hb : tr.wal_writer <;>
      simp [Tracker.commit, writeEntries, hw, hb, Except.isOk, Except.toBool]

/-- C4 (witness). -/
theorem c4_commit_clean_state_witness :
    (Tracker.commit ⟨[⟨['a'], 5, 7⟩], some []⟩ ⟨some [], none, some []⟩).2.2.snapshot
      = some ([⟨['a'], 5, 7⟩].map Track.line) :=
  ((c4_commit_clean_state ⟨[⟨['a'], 5, 7⟩], some []⟩
      ⟨some [], none, some []⟩).1 (by decide)).1

/-- C5 (counterexample): the cutoff `now − max_track_age` saturates at 0
and a record is kept only when `mtime > cutoff`, so a set holding a
record with mtime 0 does not survive the round-trip even with an
unbounded `max_track_age` — reloading its snapshot is the "non-empty
file, zero records" hard error. -/
theorem c5_counterexample :
    mtimeTooOld 1000 1000000000 = 0 ∧
    (Tracker.new (writeEntries [⟨['a'], 0, 5⟩] ⟨none, none, none⟩)
        1000 1000000000).isOk = false := by
  decide

theorem filterMap_fromStr_line (l : List Track)
    (h : ∀ t ∈ l, Track.fromStr t.line = .ok t) :
    (l.map Track.line).filterMap (fun s => (Track.fromStr s).toOption) = l := by
  induction l with
  | nil => rfl
  | cons t ts ih =>
    have ht : (Track.fromStr t.line).toOption = some t := by
      rw [h t (by simp)]
      rfl
    rw [List.map_cons, List.filterMap_cons, ht, ih (fun u hu => h u (by simp [hu]))]

/-- C5 (amended): the snapshot-write / `Tracker::new` round-trip restores
the set exactly for every set of path-distinct records whose paths are
free of NUL and newline bytes, whose numbers fit `u64`, and whose mtimes
all lie strictly above the cutoff `now − max_track_age`. -/
theorem c5_roundtrip_young (set : TrackSet) (now maxAge : Nat)
    (hnd : (set.map Track.src_path).Nodup)
    (hyoung : ∀ t ∈ set, mtimeTooOld now maxAge < t.lastmod)
    (hnul : ∀ t ∈ set, ∀ c ∈ t.src_path, c ≠ nulChar)
    (hnl : ∀ t ∈ set, ∀ c ∈ t.src_path, c ≠ '\n')
    (hb1 : ∀ t ∈ set, t.lastmod < 2 ^ 64)
    (hb2 : ∀ t ∈ set, t.size < 2 ^ 64) :
    Tracker.new (writeEntries set ⟨none, none, none⟩) now maxAge =
      .ok (⟨set, some []⟩, ⟨some (set.map Track.line), none, some []⟩) := by
  have hparse : ∀ t ∈ set, Track.fromStr t.line = .ok t := fun t ht =>
    fromStr_line t (hnul t ht) (hb1 t ht) (hb2 t ht)
  have hpy : parsedYoung (set.map Track.line) (mtimeTooOld now maxAge) = set := by
    unfold parsedYoung
    rw [filterMap_fromStr_line set hparse]
    rw [List.filter_eq_self.mpr]
    intro t ht
    simpa using hyoung t ht
  have hef : entriesFrom (some (set.map Track.line)) [] (mtimeTooOld now maxAge)
      = .ok set := by
    rw [entriesFrom_some_eq, hpy]
    rw [if_neg ?hcond]
    case hcond =>
      rintro ⟨h1, h2⟩
      cases set with
      | nil => exact h1 rfl
      | cons a l => simp at h2
    rw [foldl_setReplace_fresh set [] (fun y _ => rfl) hnd]
    rfl
  show Tracker.new ⟨some (set.map Track.line), none, none⟩ now maxAge = _
  unfold Tracker.new
  rw [hef]

/-- C5 (witness). -/
theorem c5_roundtrip_young_witness :
    Tracker.new (writeEntries [⟨['a'], 5, 7⟩] ⟨none, none, none⟩) 100 100 =
      .ok (⟨[⟨['a'], 5, 7⟩], some []⟩,
           ⟨some ([⟨['a'], 5, 7⟩].map Track.line), none, some []⟩) :=
  c5_roundtrip_young [⟨['a'], 5, 7⟩] 100 100 (by decide) (by decide) (by decide)
    (by decide) (by decide) (by decide)

/-- C6 (counterexample): a line with four NUL-separated fields is not
skipped — `from_str` ignores the extra field and parses it — so a
non-empty file holding only that line loads one record instead of
hitting the zero-records failure the claim predicts. -/
theorem c6_counterexample :
    (splitNul "a\x001\x002\x00x".toList).length = 4 ∧
    Track.fromStr "a\x001\x002\x00x".toList = .ok ⟨"a".toList, 1, 2⟩ ∧
    entriesFrom (some ["a\x001\x002\x00x".toList]) [] 0 =
      .ok [⟨"a".toList, 1, 2⟩] := by
  decide

/-- C6 (amended): a line parses exactly when it has at least three
NUL-separated fields and the 2nd and 3rd parse as `u64` (extra fields
are ignored); loading fails exactly when the file is non-empty and no
line both parsed and survived the age cutoff. -/
theorem c6_parser_characterisation (l : Str) (lines : List Str) (s : TrackSet)
    (cutoff : Nat) :
    ((Track.fromStr l).isOk = true ↔
      ∃ p m sz rest, splitNul l = p :: m :: sz :: rest ∧
        (parseU64 m).isSome = true ∧ (parseU64 sz).isSome = true) ∧
    ((entriesFrom (some lines) s cutoff).isOk = false ↔
      lines ≠ [] ∧ parsedYoung lines cutoff = []) := by
  constructor
  · unfold Track.fromStr
    cases hsp : splitNul l with
    | nil => simp [Except.isOk, Except.toBool]
    | cons p rest1 =>
      cases rest1 with
      | nil => simp [Except.isOk, Except.toBool]
      | cons m rest2 =>
        cases rest2 with
        | nil => simp [Except.isOk, Except.toBool]
        | cons sz rest =>
          cases hm : parseU64 m <;> cases hsz : parseU64 sz <;>
            simp [Except.isOk, Except.toBool, hm, hsz, List.cons.injEq]
          exact ⟨p, m, sz, ⟨rfl, rfl, rfl⟩, by simp [hm], by simp [hsz]⟩
  · exact entriesFrom_some_isOk_false_iff lines s cutoff

/-- C7 (confirmed): for a path with a filename, `keep_path` accepts
exactly when the filename matches the configured regex, is not a
dot-name unless dot-files are included, and — only when
`disable_overwrite` is set — the path is not already in the tracker;
with `disable_overwrite` unset the tracker test is skipped. The
definition of `keepPath` carries the source's checking order. -/
theorem c7_keep_path (cli : Cli) (path : Str) (set : TrackSet) (s : Str)
    (h : fileName path = some s) :
    keepPath cli path set = true ↔
      (cli.re s = true ∧
       (s.take 1 = ['.'] → cli.include_dot_files = true) ∧
       (cli.disable_overwrite = true → pathExistsInTracker set path = false)) := by
  simp only [keepPath, h]
  by_cases hre : cli.re s = true
  · by_cases hdot : s.take 1 = ['.']
    · by_cases hinc : cli.include_dot_files = true
      · by_cases hdo : cli.disable_overwrite = true
        · by_cases hex : pathExistsInTracker set path = true
          · simp [hre, hdot, hinc, hdo, hex]
          · simp_all
        · simp_all
      · simp_all
    · by_cases hdo : cli.disable_overwrite = true
      · by_cases hex : pathExistsInTracker set path = true
        · simp_all
        · simp_all
      · simp_all
  · simp_all

/-- C7 (witness). -/
theorem c7_keep_path_witness :
    keepPath ⟨fun _ => true, false, true, 10, 0⟩ "/d/a.txt".toList [] = true :=
  (c7_keep_path ⟨fun _ => true, false, true, 10, 0⟩ "/d/a.txt".toList []
      "a.txt".toList (by decide)).mpr
    ⟨rfl, by decide, by decide⟩

/-- C8 (counterexample): an old directory gets only `NOT_A_FILE`; its
age exceeds `max_age` yet the `TOO_OLD` bit is not set, refuting the
per-flag "iff" reading of the claim — the checks are prioritised and at
most one flag is returned. -/
theorem c8_counterexample :
    keepStatus ⟨fun _ => true, false, true, 10, 0⟩ 100 ['a']
        ⟨FileType.Directory, 0, 0⟩ [] = FILE_NOT_A_FILE ∧
    getFileAge 100 ⟨FileType.Directory, 0, 0⟩ > 10 ∧
    FILE_NOT_A_FILE &&& FILE_TOO_OLD = 0 := by
  decide

/-- C8 (amended): `keep_status` returns a single prioritised flag:
`NOT_A_FILE` for any non-regular entry (age untested); otherwise
`TOO_OLD` when `age > max_age`; otherwise `TOO_YOUNG` when
`age < min_age`; otherwise `NOT_CHANGED` exactly when overwrite-on-change
is active (`disable_overwrite` unset) and the tracker's record equals the
observed status; otherwise 0 — with `age = now − mtime` clamped to 0 for
a future mtime. -/
theorem c8_keep_status_flags (cli : Cli) (now : Nat) (path : Str)
    (st : FileStatus) (set : TrackSet) :
    (keepStatus cli now path st set = FILE_NOT_A_FILE ↔
      st.file_type ≠ FileType.Regular) ∧
    (keepStatus cli now path st set = FILE_TOO_OLD ↔
      st.file_type = FileType.Regular ∧ cli.max_age < getFileAge now st) ∧
    (keepStatus cli now path st set = FILE_TOO_YOUNG ↔
      st.file_type = FileType.Regular ∧ getFileAge now st ≤ cli.max_age ∧
      getFileAge now st < cli.min_age) ∧
    (keepStatus cli now path st set = SRC_FILE_NOT_CHANGED ↔
      st.file_type = FileType.Regular ∧ getFileAge now st ≤ cli.max_age ∧
      cli.min_age ≤ getFileAge now st ∧ cli.disable_overwrite = false ∧
      Tracker.check set path st = TrackDelta.Equal) ∧
    (keepStatus cli now path st set = 0 ↔
      st.file_type = FileType.Regular ∧ getFileAge now st ≤ cli.max_age ∧
      cli.min_age ≤ getFileAge now st ∧
      (cli.disable_overwrite = true ∨
        Tracker.check set path st ≠ TrackDelta.Equal)) ∧
    (st.mtime ≥ now → getFileAge now st = 0) := by
  have hclamp : st.mtime ≥ now → getFileAge now st = 0 := by
    unfold getFileAge
    omega
  by_cases hreg : st.file_type = FileType.Regular
  · by_cases hold : getFileAge now st > cli.max_age
    · refine ⟨?_, ?_, ?_, ?_, ?_, hclamp⟩ <;>
        simp [keepStatus, hreg, hold, FILE_TOO_OLD, FILE_TOO_YOUNG,
          FILE_NOT_A_FILE, SRC_FILE_NOT_CHANGED] <;> try omega
    · by_cases hyg : getFileAge now st < cli.min_age
      · refine ⟨?_, ?_, ?_, ?_, ?_, hclamp⟩ <;>
          simp [keepStatus, hreg, hold, hyg, FILE_TOO_OLD, FILE_TOO_YOUNG,
            FILE_NOT_A_FILE, SRC_FILE_NOT_CHANGED] <;> omega
      · cases hdo : cli.disable_overwrite with
        | true =>
          refine ⟨?_, ?_, ?_, ?_, ?_, hclamp⟩ <;>
            simp [keepStatus, hreg, hold, hyg, hdo, FILE_TOO_OLD,
              FILE_TOO_YOUNG, FILE_NOT_A_FILE, SRC_FILE_NOT_CHANGED] <;> omega
        | false =>
          cases hchk : Tracker.check set path st <;>
            refine ⟨?_, ?_, ?_, ?_, ?_, hclamp⟩ <;>
              simp [keepStatus, hreg, hold, hyg, hdo, hchk, FILE_TOO_OLD,
                FILE_TOO_YOUNG, FILE_NOT_A_FILE, SRC_FILE_NOT_CHANGED] <;> omega
  · refine ⟨?_, ?_, ?_, ?_, ?_, hclamp⟩ <;>
      simp [keepStatus, hreg, FILE_TOO_OLD, FILE_TOO_YOUNG, FILE_NOT_A_FILE,
        SRC_FILE_NOT_CHANGED] <;> try omega

/-- C9 (confirmed): with a non-empty buffer ring, the threaded copier
writes to the destination exactly the concatenation of the chunks read
from the source, in order, stopping at the first zero-byte read, and
returns their total length; a read error or a write error before
end-of-file makes it return an error. -/
theorem c9_copier (buffSize ringSize : Nat) (chunks : List (List Nat))
    (hB : 0 < ringSize) (hc : ∀ c ∈ chunks, c ≠ [] ∧ c.length ≤ buffSize) :
    copier buffSize ringSize (chunksToEvents chunks) =
      .ok (chunks.flatten.length, chunks.flatten) ∧
    (∀ tail, (copier buffSize ringSize
        (chunks.map (fun c => ReadEv.rchunk c true) ++ ReadEv.rerr :: tail)).isOk
      = false) ∧
    (∀ d tail, d ≠ [] → (copier buffSize ringSize
        (chunks.map (fun c => ReadEv.rchunk c true) ++
          ReadEv.rchunk d false :: tail)).isOk = false) := by
  have hring : List.replicate ringSize (List.replicate buffSize 0) ≠ [] := by
    cases ringSize with
    | zero => omega
    | succ _ => simp
  refine ⟨?_, ?_, ?_⟩
  · unfold copier
    rw [copierGo_chunks chunks (fun c hcm => (hc c hcm).1) _ 0 [] hring]
    simp
  · intro tail
    exact copierGo_read_error chunks (fun c hcm => (hc c hcm).1) tail _ 0 [] hring
  · intro d tail hd
    exact copierGo_write_error chunks (fun c hcm => (hc c hcm).1) d hd tail _ 0 []
      hring

/-- C9 (witness). -/
theorem c9_copier_witness :
    copier 4 2 (chunksToEvents [[1, 2], [3]]) = .ok (3, [1, 2, 3]) :=
  (c9_copier 4 2 [[1, 2], [3]] (by decide) (by decide)).1

/-- C10 (confirmed): both VFS status conversions only ever produce
`Regular` or `Directory`, never `Unknown`: the local backend maps
regular files to `Regular` and every other entry to `Directory`, the
SFTP backend maps directories to `Directory` and every other entry to
`Regular`. -/
theorem c10_filetype_never_unknown :
    (∀ (m : Metadata) (st : FileStatus), fileStatusOfMetadata m = .ok st →
      st.file_type ≠ FileType.Unknown ∧
      (m.is_file = true → st.file_type = FileType.Regular) ∧
      (m.is_file = false → st.file_type = FileType.Directory)) ∧
    (∀ (fst : SshFileStat) (st : FileStatus), fileStatusOfFileStat fst = .ok st →
      st.file_type ≠ FileType.Unknown ∧
      (fst.is_dir = true → st.file_type = FileType.Directory) ∧
      (fst.is_dir = false → st.file_type = FileType.Regular)) := by
  constructor
  · intro m st h
    unfold fileStatusOfMetadata at h
    cases hm : m.modified with
    | error e => rw [hm] at h; cases h
    | ok ft =>
      rw [hm] at h
      cases h
      cases hf : m.is_file <;> simp [hf]
  · intro fst st h
    unfold fileStatusOfFileStat at h
    cases hm : fst.mtime with
    | none => rw [hm] at h; cases h
    | some mt =>
      rw [hm] at h
      cases h
      cases hd : fst.is_dir <;> simp [hd]

/-- C10 (witness). -/
theorem c10_filetype_never_unknown_witness :
    (⟨FileType.Regular, 3, 5⟩ : FileStatus).file_type ≠ FileType.Unknown :=
  ((c10_filetype_never_unknown).1 ⟨true, .ok 5, 3⟩ ⟨FileType.Regular, 3, 5⟩
    rfl).1

end PullPush
